import Mathlib

/-!
Shallow embedding of the NEXUS governance proposal engine
(`nexus-backend/src/routes/auth.js`, the three `/:communityId/proposals`
routes). JavaScript numbers are modelled over `ℚ` for the percentage
arithmetic, epoch-millisecond timestamps over `ℤ`, and the Prisma store
as in-memory lists with lookup by id. Each route handler becomes a total
function returning `Except ApiErr ...`; an early `throw` in the handler
becomes an early `.error`, so an error result performs no writes, exactly
as the thrown `ApiError` aborts the handler before any `prisma` write.
-/

namespace Nexus

/-- JavaScript `String.prototype.trim()` (the `.trim()` sanitizer of the
validator chain): strip leading and trailing whitespace. Implemented
structurally over the character list so that it evaluates by `decide`. -/
def jsTrim (s : String) : String :=
  ⟨((s.data.dropWhile Char.isWhitespace).reverse.dropWhile Char.isWhitespace).reverse⟩

/-- Proposal status, `status` column: `'ACTIVE' | 'PASSED' | 'FAILED' | 'EXECUTED'`. -/
inductive Status where
  | ACTIVE
  | PASSED
  | FAILED
  | EXECUTED
deriving DecidableEq, Repr

/-- Community voting-power mode (`community.votingPower`). -/
inductive VotingPower where
  | EQUAL
  | TOKEN_WEIGHTED
  | NFT_WEIGHTED
deriving DecidableEq, Repr

/-- Proposal type; validator `body('type').isIn([...])`. Informational only. -/
inductive PType where
  | FUNDING
  | GOVERNANCE
  | BOUNTY
  | GENERAL
deriving DecidableEq, Repr

/-- The `vote` field of the request body: a JSON boolean passes
`body('vote').isBoolean()`, anything else fails validation. -/
inductive RawChoice where
  | bool (val : Bool)
  | nonBool
deriving DecidableEq, Repr

/-- A role attached to a community membership (`membership.roles[..].role`). -/
structure Role where
  permissions : List String
deriving DecidableEq, Repr

/-- A `communityMember` row with its roles included. -/
structure Membership where
  userId : Nat
  communityId : Nat
  roles : List Role
deriving DecidableEq, Repr

/-- A `community` row (the fields the engine reads). -/
structure Community where
  id : Nat
  memberCount : Nat
  votingPower : VotingPower
deriving DecidableEq, Repr

/-- A `proposal` row. Timestamps are epoch milliseconds. -/
structure Proposal where
  id : Nat
  communityId : Nat
  title : String
  description : String
  ptype : PType
  createdAt : Int
  votingStartsAt : Int
  votingEndsAt : Int
  requiredQuorum : Int
  passingThreshold : Int
  gasRequired : Bool
  status : Status
  yesVotes : Nat
  noVotes : Nat
  totalVotes : Nat
deriving DecidableEq, Repr

/-- A `proposalVote` row. -/
structure Vote where
  proposalId : Nat
  userId : Nat
  vote : Bool
  weight : Nat
deriving DecidableEq, Repr

/-- The persistent store. `nextId` models the generator of fresh
proposal primary keys (UUIDs in the source; freshness is what matters). -/
structure DB where
  communities : List Community
  memberships : List Membership
  proposals : List Proposal
  votes : List Vote
  nextId : Nat
deriving DecidableEq, Repr

/-- Errors thrown as `ApiError` by the three handlers. `internalError`
stands for the uncaught `TypeError` that a broken `community` relation
would raise (never reachable from well-formed stores). -/
inductive ApiErr where
  | validationFailed
  | proposalNotFound
  | proposalNotActive
  | votingWindowClosed
  | duplicateVote
  | mustBeMember
  | permissionDenied
  | txHashRequired
  | internalError
deriving DecidableEq, Repr

/-- `prisma.proposal.findUnique({ where: { id } })`. -/
def findProposal (db : DB) (pid : Nat) : Option Proposal :=
  db.proposals.find? (fun p => p.id == pid)

/-- `prisma.community.findUnique` / the `community` relation included with a proposal. -/
def findCommunity (db : DB) (cid : Nat) : Option Community :=
  db.communities.find? (fun c => c.id == cid)

/-- `prisma.communityMember.findUnique({ where: { userId_communityId } })`. -/
def findMembership (db : DB) (uid cid : Nat) : Option Membership :=
  db.memberships.find? (fun m => m.userId == uid && m.communityId == cid)

/-- `membership.roles.some(mr => mr.role.permissions.includes(perm))`. -/
def hasPerm (m : Membership) (perm : String) : Bool :=
  m.roles.any (fun r => r.permissions.contains perm)

/-- The `votes: { where: { userId } }` sub-query on the proposal fetch:
whether this user already has a vote row on this proposal. -/
def hasVoted (db : DB) (pid uid : Nat) : Bool :=
  db.votes.any (fun v => v.proposalId == pid && v.userId == uid)

/-- Stored status of a proposal, read back from the store. -/
def statusOf (db : DB) (pid : Nat) : Option Status :=
  (findProposal db pid).map (·.status)

/-- Number of vote rows recorded for a proposal. -/
def countVotes (db : DB) (pid : Nat) : Nat :=
  (db.votes.filter (fun v => v.proposalId == pid)).length

/-- `prisma.proposal.update({ where: { id: pid }, data: ... })`: apply `f`
to the row whose primary key is `pid` (keys are unique in the store). -/
def mapProposal (db : DB) (pid : Nat) (f : Proposal → Proposal) : DB :=
  { db with proposals := db.proposals.map (fun q => if q.id == pid then f q else q) }

/-- `prisma.proposal.update({ data: { status } })`. -/
def setStatus (db : DB) (pid : Nat) (s : Status) : DB :=
  mapProposal db pid (fun q => { q with status := s })

/-- The tally increments of lines 1074-1084: `yesVotes`/`noVotes`
increment by the voting weight depending on the choice, `totalVotes`
always increments by the weight. -/
def applyTally (vote : Bool) (w : Nat) (q : Proposal) : Proposal :=
  if vote then { q with yesVotes := q.yesVotes + w, totalVotes := q.totalVotes + w }
  else { q with noVotes := q.noVotes + w, totalVotes := q.totalVotes + w }

/-- Lines 1053-1062: `let votingWeight = 1` (equal voting default), and the
`TOKEN_WEIGHTED` / `NFT_WEIGHTED` branches both also assign `1`. -/
def resolveVotingWeight (c : Community) : Nat :=
  if c.votingPower == .TOKEN_WEIGHTED then 1
  else if c.votingPower == .NFT_WEIGHTED then 1
  else 1

/-- The write path of a vote that passed every guard (lines 1064-1104):
insert the `proposalVote` row, increment the tallies, then evaluate the
resolution check against the updated row and the community member count,
persisting `PASSED`/`FAILED` when its conditions fire. `updatedProposal`
is the stored row after the increment, i.e. the fetched row `p` with the
tally applied (primary keys are unique). Returns the new store and the
tallies echoed in the JSON response. -/
def castVoteOk (db : DB) (now : Int) (pid uid : Nat) (vote : Bool)
    (p : Proposal) (c : Community) : DB × Vote × Proposal :=
  let votingWeight := resolveVotingWeight c
  let db1 : DB := { db with votes := db.votes ++ [⟨pid, uid, vote, votingWeight⟩] }
  let updatedProposal := applyTally vote votingWeight p
  let db2 := mapProposal db1 pid (applyTally vote votingWeight)
  let participationRate : ℚ := (updatedProposal.totalVotes : ℚ) / (c.memberCount : ℚ) * 100
  let db3 :=
    if participationRate ≥ (updatedProposal.requiredQuorum : ℚ) then
      let yesPercentage : ℚ :=
        (updatedProposal.yesVotes : ℚ) / (updatedProposal.totalVotes : ℚ) * 100
      if yesPercentage ≥ (updatedProposal.passingThreshold : ℚ) then
        setStatus db2 pid .PASSED
      else if now > updatedProposal.votingEndsAt then
        setStatus db2 pid .FAILED
      else db2
    else db2
  (db3, ⟨pid, uid, vote, votingWeight⟩, updatedProposal)

/-- `POST /:communityId/proposals/:proposalId/vote` (lines 968-1142).
Guards in source order: request validation, proposal lookup (404 also when
the proposal belongs to another community), status guard, voting-window
guard, duplicate-vote guard, membership, VOTE permission, gas/txHash
requirement; then the write path. -/
def castVote (db : DB) (now : Int) (cid pid uid : Nat) (choice : RawChoice)
    (txHash : Option Nat) : Except ApiErr (DB × Vote × Proposal) :=
  match choice with
  | .nonBool => .error .validationFailed
  | .bool vote =>
    match findProposal db pid with
    | none => .error .proposalNotFound
    | some p =>
      if p.communityId ≠ cid then .error .proposalNotFound
      else if p.status ≠ .ACTIVE then .error .proposalNotActive
      else if now > p.votingEndsAt then .error .votingWindowClosed
      else if hasVoted db pid uid then .error .duplicateVote
      else
        match findMembership db uid cid with
        | none => .error .mustBeMember
        | some m =>
          if ¬ hasPerm m "VOTE" then .error .permissionDenied
          else if p.gasRequired && txHash.isNone then .error .txHashRequired
          else
            match findCommunity db p.communityId with
            | none => .error .internalError
            | some c => .ok (castVoteOk db now pid uid vote p c)

/-- Modelled from the spec: the Prisma schema (`prisma/schema.prisma`) is
not among the provided sources, so the column defaults used by
`prisma.proposal.create` are taken from the spec, which states that
`createProposal` "initializes tallies to zero and status to ACTIVE" — the
tally columns default to `0`. -/
def defaultTally : Nat := 0

/-- The `POST /:communityId/proposals` validator chain (lines 826-854):
trimmed title length in [5,100], trimmed description length in [20,2000],
`votingDuration` an integer in [1,168], optional `requiredQuorum` and
`passingThreshold` integers in [1,100]. -/
def createValid (title description : String) (votingDuration : Int)
    (requiredQuorum passingThreshold : Option Int) : Prop :=
  5 ≤ (jsTrim title).length ∧ (jsTrim title).length ≤ 100 ∧
  20 ≤ (jsTrim description).length ∧ (jsTrim description).length ≤ 2000 ∧
  1 ≤ votingDuration ∧ votingDuration ≤ 168 ∧
  (∀ q ∈ requiredQuorum, 1 ≤ q ∧ q ≤ 100) ∧
  (∀ t ∈ passingThreshold, 1 ≤ t ∧ t ≤ 100)

instance (t d : String) (v : Int) (q p : Option Int) :
    Decidable (createValid t d v q p) := by
  unfold createValid; infer_instance

/-- The row `prisma.proposal.create` inserts (lines 902-919):
`votingStartsAt = new Date()` (the current time), `votingEndsAt` one
`votingDuration` of hours later, trimmed title/description, the
destructuring defaults `requiredQuorum = 50`, `passingThreshold = 50`,
`gasRequired = false`, `status: 'ACTIVE'`, and the schema defaults for
the tally columns (see `defaultTally`). -/
def newProposal (db : DB) (now : Int) (cid : Nat) (title description : String)
    (ptype : PType) (votingDuration : Int)
    (requiredQuorum passingThreshold : Option Int) (gasRequired : Option Bool) :
    Proposal :=
  let votingStartsAt := now
  let votingEndsAt := now + votingDuration * 60 * 60 * 1000
  { id := db.nextId
    communityId := cid
    title := jsTrim title
    description := jsTrim description
    ptype := ptype
    createdAt := now
    votingStartsAt := votingStartsAt
    votingEndsAt := votingEndsAt
    requiredQuorum := requiredQuorum.getD 50
    passingThreshold := passingThreshold.getD 50
    gasRequired := gasRequired.getD false
    status := .ACTIVE
    yesVotes := defaultTally
    noVotes := defaultTally
    totalVotes := defaultTally }

/-- `POST /:communityId/proposals` (lines 824-961): validation, membership
and CREATE_PROPOSALS permission, then the create with
`votingStartsAt = now`, `votingEndsAt = now + votingDuration hours`,
`requiredQuorum = 50` and `passingThreshold = 50` when omitted,
`gasRequired = false` when omitted, `status: 'ACTIVE'`, and the schema
defaults for the tallies (see `defaultTally`). -/
def createProposal (db : DB) (now : Int) (cid uid : Nat)
    (title description : String) (ptype : PType) (votingDuration : Int)
    (requiredQuorum passingThreshold : Option Int) (gasRequired : Option Bool) :
    Except ApiErr (DB × Proposal) :=
  if ¬ createValid title description votingDuration requiredQuorum passingThreshold then
    .error .validationFailed
  else
    match findMembership db uid cid with
    | none => .error .mustBeMember
    | some m =>
      if ¬ hasPerm m "CREATE_PROPOSALS" then .error .permissionDenied
      else
        let p := newProposal db now cid title description ptype votingDuration
          requiredQuorum passingThreshold gasRequired
        .ok ({ db with proposals := db.proposals ++ [p], nextId := db.nextId + 1 }, p)

/-- One formatted proposal of the `GET /:communityId/proposals` response
(lines 1204-1220): the stored row spread into the payload plus the derived
`hasVoted`, `timeRemaining`, `isActive` and `canVote` fields. -/
structure Entry where
  status : Status
  yesVotes : Nat
  noVotes : Nat
  totalVotes : Nat
  hasVoted : Bool
  timeRemaining : Int
  isActive : Bool
  canVote : Bool
deriving DecidableEq, Repr

/-- Lines 1204-1219: `timeRemaining = max(0, votingEndsAt - now)`,
`isActive = status === 'ACTIVE' && timeRemaining > 0`,
`canVote = isActive && !userVote`. -/
def formatEntry (db : DB) (now : Int) (uid : Nat) (p : Proposal) : Entry :=
  let userVote := db.votes.find? (fun v => v.proposalId == p.id && v.userId == uid)
  let timeRemaining : Int := max 0 (p.votingEndsAt - now)
  let isActive : Bool := p.status == .ACTIVE && decide (0 < timeRemaining)
  { status := p.status
    yesVotes := p.yesVotes
    noVotes := p.noVotes
    totalVotes := p.totalVotes
    hasVoted := userVote.isSome
    timeRemaining := timeRemaining
    isActive := isActive
    canVote := isActive && userVote.isNone }

/-- Insertion step of `orderBy: { createdAt: 'desc' }`. -/
def insertByCreatedDesc (p : Proposal) : List Proposal → List Proposal
  | [] => [p]
  | q :: qs => if p.createdAt ≥ q.createdAt then p :: q :: qs else q :: insertByCreatedDesc p qs

/-- `orderBy: { createdAt: 'desc' }`. -/
def sortByCreatedDesc (l : List Proposal) : List Proposal :=
  l.foldr insertByCreatedDesc []

/-- `GET /:communityId/proposals` (lines 1149-1236): query validation,
membership guard, filter by community (and optional status), order by
`createdAt` descending, paginate with `skip = (page-1)*limit`, and format.
The handler performs no store write: in particular it never re-evaluates
or persists the status of an expired ACTIVE proposal. -/
def getProposals (db : DB) (now : Int) (cid uid : Nat) (statusFilter : Option Status)
    (page limit : Nat) : Except ApiErr (List Entry) :=
  if ¬ (1 ≤ page ∧ 1 ≤ limit ∧ limit ≤ 50) then .error .validationFailed
  else
    match findMembership db uid cid with
    | none => .error .mustBeMember
    | some _ =>
      let filtered := db.proposals.filter (fun p =>
        p.communityId == cid &&
          (match statusFilter with
           | none => true
           | some s => p.status == s))
      let sorted := sortByCreatedDesc filtered
      let paged := (sorted.drop ((page - 1) * limit)).take limit
      .ok (paged.map (formatEntry db now uid))

/-- One request against the engine, tagged with the wall-clock instant at
which the handler runs. -/
inductive Op where
  | create (now : Int) (cid uid : Nat) (title description : String) (ptype : PType)
      (votingDuration : Int) (requiredQuorum passingThreshold : Option Int)
      (gasRequired : Option Bool)
  | vote (now : Int) (cid pid uid : Nat) (choice : RawChoice) (txHash : Option Nat)
  | read (now : Int) (cid uid : Nat) (statusFilter : Option Status) (page limit : Nat)

/-- Effect of one request on the store: a handler that throws leaves the
store untouched, the read handler performs no writes at all. -/
def step (db : DB) : Op → DB
  | .create now cid uid t d ty v q th g =>
    match createProposal db now cid uid t d ty v q th g with
    | .ok (db', _) => db'
    | .error _ => db
  | .vote now cid pid uid ch tx =>
    match castVote db now cid pid uid ch tx with
    | .ok (db', _) => db'
    | .error _ => db
  | .read _ _ _ _ _ _ => db

/-- The spec's `resolve` reference function (§4.3), written from the
spec's pseudocode over the same rational model of JS numbers: quorum
against current community size, then threshold over cast weight, with the
window-expiry fallbacks. Used only to compare the code's persisted status
against the spec's resolution policy. -/
def resolveSpec (yesWeight totalWeight : Nat) (requiredQuorum passingThreshold : Int)
    (now votingEndsAt : Int) (memberCount : Nat) : Status :=
  let participationPct : ℚ := (totalWeight : ℚ) / (memberCount : ℚ) * 100
  if participationPct ≥ (requiredQuorum : ℚ) then
    let yesPct : ℚ := (yesWeight : ℚ) / (totalWeight : ℚ) * 100
    if yesPct ≥ (passingThreshold : ℚ) then .PASSED
    else if now > votingEndsAt then .FAILED
    else .ACTIVE
  else if now > votingEndsAt then .FAILED
  else .ACTIVE

/-! ### Store invariants -/

/-- At most one vote row per (proposal, voter) pair. -/
def UniqueVoters (l : List Vote) : Prop :=
  l.Pairwise (fun a b => ¬(a.proposalId = b.proposalId ∧ a.userId = b.userId))

/-- Well-formedness of the store: proposal keys are fresh and unique, the
tally equation holds, the vote ledger has at most one row per
(proposal, voter), every stored weight is 1, each proposal's `totalVotes`
equals its number of ledger rows, and every vote references a stored
proposal. -/
def Good (db : DB) : Prop :=
  (∀ p ∈ db.proposals, p.id < db.nextId) ∧
  db.proposals.Pairwise (fun a b => a.id ≠ b.id) ∧
  (∀ p ∈ db.proposals, p.yesVotes + p.noVotes = p.totalVotes) ∧
  UniqueVoters db.votes ∧
  (∀ v ∈ db.votes, v.weight = 1) ∧
  (∀ p ∈ db.proposals, p.totalVotes = countVotes db p.id) ∧
  (∀ v ∈ db.votes, ∃ p ∈ db.proposals, v.proposalId = p.id)

instance (db : DB) : Decidable (Good db) := by
  unfold Good UniqueVoters countVotes; infer_instance

/-- Forward-only status relation: a step either keeps the status or moves
ACTIVE to a terminal PASSED/FAILED. -/
def StatusStep (s s' : Status) : Prop :=
  s = s' ∨ (s = .ACTIVE ∧ (s' = .PASSED ∨ s' = .FAILED))

/-- The combined ledger insert + tally update of a successful vote
(`prisma.proposalVote.create` followed by the increments), factored out of
`castVoteOk` for reasoning: `(castVoteOk ...).1` is this store with at
most one additional status write on top. -/
def recordAndTally (db : DB) (pid uid : Nat) (vote : Bool) (w : Nat) : DB :=
  mapProposal { db with votes := db.votes ++ [⟨pid, uid, vote, w⟩] } pid (applyTally vote w)

deriving instance DecidableEq for Except

/-! ### Concrete stores used to exercise the operations -/

/-- A role granting both governance capabilities. -/
def roleAll : Role := ⟨["CREATE_PROPOSALS", "VOTE"]⟩

/-- A community of 10 members with equal voting power. -/
def commW : Community := ⟨1, 10, .EQUAL⟩

/-- Ten members, user ids 100-109, each holding `roleAll`. -/
def membersW : List Membership :=
  (List.range 10).map (fun i => ⟨100 + i, 1, [roleAll]⟩)

/-- Initial store: the community and its members, no proposals, no votes. -/
def dbW : DB := ⟨[commW], membersW, [], [], 1⟩

def titleW : String := "Fund the treasury"

def descW : String := "Allocate funds to the community treasury now."

/-- Store after user 100 creates a proposal at time 0 with a 24 hour
window, `requiredQuorum = 50`, `passingThreshold = 60`. -/
def dbC : DB := step dbW (.create 0 1 100 titleW descW .GENERAL 24 (some 50) (some 60) none)

/-- The created proposal row (id 1, window `[0, 86400000]`). -/
def proposalC : Proposal := newProposal dbW 0 1 titleW descW .GENERAL 24 (some 50) (some 60) none

/-- Store after the first `n` of users 100,101,... each cast a yes vote at
time 10 (well inside the window). -/
def dbAfter (n : Nat) : DB :=
  (List.range n).foldl (fun db i => step db (.vote 10 1 1 (100 + i) (.bool true) none)) dbC

/-- The proposal row after `k` yes votes (before any status write). -/
def pAfter (k : Nat) : Proposal := { proposalC with yesVotes := k, totalVotes := k }

/-- An ACTIVE proposal whose window ended at time 100 with only 2 of 10
members having voted (quorum 50 missed). -/
def proposalE : Proposal := { proposalC with votingEndsAt := 100, yesVotes := 1, noVotes := 1, totalVotes := 2 }

/-- Store holding `proposalE` and its two votes. -/
def dbE : DB := ⟨[commW], membersW, [proposalE], [⟨1, 100, true, 1⟩, ⟨1, 101, false, 1⟩], 2⟩

/-- A proposal already resolved PASSED (5 of 10 yes votes). -/
def proposalT : Proposal := { proposalC with status := .PASSED, yesVotes := 5, totalVotes := 5 }

/-- Store holding the terminal `proposalT` and its five votes. -/
def dbT : DB :=
  ⟨[commW], membersW, [proposalT], (List.range 5).map (fun i => ⟨1, 100 + i, true, 1⟩), 2⟩

/-! ### Basic lemmas about the store operations -/

theorem applyTally_id (vote : Bool) (w : Nat) (q : Proposal) :
    (applyTally vote w q).id = q.id := by
  unfold applyTally; split <;> rfl

theorem applyTally_status (vote : Bool) (w : Nat) (q : Proposal) :
    (applyTally vote w q).status = q.status := by
  unfold applyTally; split <;> rfl

theorem applyTally_config (vote : Bool) (w : Nat) (q : Proposal) :
    (applyTally vote w q).requiredQuorum = q.requiredQuorum ∧
    (applyTally vote w q).passingThreshold = q.passingThreshold ∧
    (applyTally vote w q).votingEndsAt = q.votingEndsAt ∧
    (applyTally vote w q).communityId = q.communityId := by
  unfold applyTally; split <;> exact ⟨rfl, rfl, rfl, rfl⟩

theorem resolveVotingWeight_eq_one (c : Community) : resolveVotingWeight c = 1 := by
  unfold resolveVotingWeight; split <;> simp

theorem mapProposal_votes (db : DB) (pid : Nat) (f : Proposal → Proposal) :
    (mapProposal db pid f).votes = db.votes := rfl

theorem findProposal_mapProposal (db : DB) (pid k : Nat) (f : Proposal → Proposal)
    (hid : ∀ q, (f q).id = q.id) :
    findProposal (mapProposal db pid f) k =
      (findProposal db k).map (fun q => if q.id == pid then f q else q) := by
  unfold findProposal mapProposal
  rw [List.find?_map]
  have hpred : ((fun p : Proposal => p.id == k) ∘ fun q => if q.id == pid then f q else q)
      = (fun p : Proposal => p.id == k) := by
    funext q
    by_cases h : q.id = pid <;> simp [Function.comp, h, hid]
  rw [hpred]

theorem findProposal_some_id {db : DB} {pid : Nat} {p : Proposal}
    (h : findProposal db pid = some p) : p.id = pid := by
  have := List.find?_some h
  simpa using this

theorem findProposal_some_mem {db : DB} {pid : Nat} {p : Proposal}
    (h : findProposal db pid = some p) : p ∈ db.proposals :=
  List.mem_of_find?_eq_some h

/-- With unique keys, any stored row carrying the looked-up key is the row
the lookup returned. -/
theorem mem_eq_of_findProposal {db : DB} {pid : Nat} {p q : Proposal}
    (hu : db.proposals.Pairwise (fun a b => a.id ≠ b.id))
    (hf : findProposal db pid = some p) (hq : q ∈ db.proposals) (hqid : q.id = pid) :
    q = p := by
  by_contra hne
  have hsym : Symmetric (fun a b : Proposal => a.id ≠ b.id) := fun a b h => Ne.symm h
  have := hu.forall hsym hq (findProposal_some_mem hf) hne
  exact this (hqid.trans (findProposal_some_id hf).symm)

/-! ### Inversion of a successful vote -/

theorem castVote_ok_elim {db : DB} {now : Int} {cid pid uid : Nat} {ch : RawChoice}
    {tx : Option Nat} {out : DB × Vote × Proposal}
    (h : castVote db now cid pid uid ch tx = .ok out) :
    ∃ vote p m c, ch = .bool vote ∧ findProposal db pid = some p ∧
      p.communityId = cid ∧ p.status = .ACTIVE ∧ ¬ now > p.votingEndsAt ∧
      hasVoted db pid uid = false ∧ findMembership db uid cid = some m ∧
      hasPerm m "VOTE" = true ∧ (p.gasRequired && tx.isNone) = false ∧
      findCommunity db p.communityId = some c ∧
      out = castVoteOk db now pid uid vote p c := by
  cases ch with
  | nonBool => exact absurd h (by simp [castVote])
  | bool vote =>
    cases hfp : findProposal db pid with
    | none => simp [castVote, hfp] at h
    | some p =>
      simp only [castVote, hfp] at h
      refine ⟨vote, p, ?_⟩
      split at h
      · cases h
      next hcid =>
        split at h
        · cases h
        next hstat =>
          split at h
          · cases h
          next hwin =>
            split at h
            · cases h
            next hdup =>
              cases hm : findMembership db uid cid with
              | none => simp only [hm] at h; cases h
              | some m =>
                simp only [hm] at h
                refine ⟨m, ?_⟩
                split at h
                · cases h
                next hperm =>
                  split at h
                  · cases h
                  next hgas =>
                    cases hc : findCommunity db p.communityId with
                    | none => simp only [hc] at h; cases h
                    | some c =>
                      simp only [hc] at h
                      injection h with h
                      exact ⟨c, rfl, rfl, not_not.mp hcid, not_not.mp hstat, hwin,
                        eq_false_of_ne_true hdup, rfl, not_not.mp hperm,
                        eq_false_of_ne_true hgas, rfl, h.symm⟩

/-! ### Guard rejections of `castVote` -/

theorem castVote_not_active (db : DB) (now : Int) (cid pid uid : Nat) (b : Bool)
    (tx : Option Nat) {p : Proposal}
    (hfp : findProposal db pid = some p) (hcid : p.communityId = cid)
    (hstat : p.status ≠ .ACTIVE) :
    castVote db now cid pid uid (.bool b) tx = .error .proposalNotActive := by
  unfold castVote; rw [hfp]; simp [hcid, hstat]

theorem castVote_window_closed (db : DB) (now : Int) (cid pid uid : Nat) (b : Bool)
    (tx : Option Nat) {p : Proposal}
    (hfp : findProposal db pid = some p) (hcid : p.communityId = cid)
    (hstat : p.status = .ACTIVE) (hwin : now > p.votingEndsAt) :
    castVote db now cid pid uid (.bool b) tx = .error .votingWindowClosed := by
  unfold castVote; rw [hfp]; simp [hcid, hstat, hwin]

theorem castVote_duplicate (db : DB) (now : Int) (cid pid uid : Nat) (b : Bool)
    (tx : Option Nat) {p : Proposal}
    (hfp : findProposal db pid = some p) (hcid : p.communityId = cid)
    (hstat : p.status = .ACTIVE) (hwin : ¬ now > p.votingEndsAt)
    (hdup : hasVoted db pid uid = true) :
    castVote db now cid pid uid (.bool b) tx = .error .duplicateVote := by
  unfold castVote; rw [hfp]; simp [hcid, hstat, hwin, hdup]

theorem step_vote_error {db : DB} {now : Int} {cid pid uid : Nat} {ch : RawChoice}
    {tx : Option Nat} {e : ApiErr}
    (h : castVote db now cid pid uid ch tx = .error e) :
    step db (.vote now cid pid uid ch tx) = db := by
  simp [step, h]

theorem applyTally_total (vote : Bool) (w : Nat) (q : Proposal) :
    (applyTally vote w q).totalVotes = q.totalVotes + w := by
  unfold applyTally; split <;> rfl

theorem applyTally_yes_le (vote : Bool) (w : Nat) (q : Proposal) :
    q.yesVotes ≤ (applyTally vote w q).yesVotes := by
  unfold applyTally; split <;> simp

theorem applyTally_no_le (vote : Bool) (w : Nat) (q : Proposal) :
    q.noVotes ≤ (applyTally vote w q).noVotes := by
  unfold applyTally; split <;> simp

theorem ite_applyTally_id (vote : Bool) (w pid : Nat) (q : Proposal) :
    (if q.id == pid then applyTally vote w q else q).id = q.id := by
  split <;> simp [applyTally_id]

/-- The store a successful vote writes: the ledger insert + tally update,
plus at most one terminal status write on the same proposal. -/
theorem castVoteOk_fst_cases (db : DB) (now : Int) (pid uid : Nat) (vote : Bool)
    (p : Proposal) (c : Community) :
    (castVoteOk db now pid uid vote p c).1 = recordAndTally db pid uid vote 1 ∨
    ∃ s, (s = Status.PASSED ∨ s = Status.FAILED) ∧
      (castVoteOk db now pid uid vote p c).1 =
        setStatus (recordAndTally db pid uid vote 1) pid s := by
  simp only [castVoteOk, recordAndTally, resolveVotingWeight_eq_one]
  split
  · split
    · exact Or.inr ⟨.PASSED, Or.inl rfl, rfl⟩
    · split
      · exact Or.inr ⟨.FAILED, Or.inr rfl, rfl⟩
      · exact Or.inl rfl
  · exact Or.inl rfl

theorem createProposal_ok_elim {db : DB} {now : Int} {cid uid : Nat}
    {t d : String} {ty : PType} {du : Int} {q th : Option Int} {g : Option Bool}
    {out : DB × Proposal}
    (h : createProposal db now cid uid t d ty du q th g = .ok out) :
    createValid t d du q th ∧
    ∃ m, findMembership db uid cid = some m ∧ hasPerm m "CREATE_PROPOSALS" = true ∧
      out = ({ db with
                proposals := db.proposals ++ [newProposal db now cid t d ty du q th g],
                nextId := db.nextId + 1 }, newProposal db now cid t d ty du q th g) := by
  unfold createProposal at h
  split at h
  · cases h
  next hval =>
    cases hm : findMembership db uid cid with
    | none => simp only [hm] at h; cases h
    | some m =>
      simp only [hm] at h
      split at h
      · cases h
      next hperm =>
        injection h with h
        exact ⟨not_not.mp hval, m, rfl, not_not.mp hperm, h.symm⟩

/-- Updating a proposal row in a way that keeps its key and tallies keeps
the store well-formed. -/
theorem good_mapProposal {db : DB} (hg : Good db) (pid : Nat) (f : Proposal → Proposal)
    (hid : ∀ q, (f q).id = q.id)
    (hyes : ∀ q, (f q).yesVotes = q.yesVotes)
    (hno : ∀ q, (f q).noVotes = q.noVotes)
    (htot : ∀ q, (f q).totalVotes = q.totalVotes) :
    Good (mapProposal db pid f) := by
  obtain ⟨h1, h2, h3, h4, h5, h6, h7⟩ := hg
  have gid : ∀ q : Proposal, (if q.id == pid then f q else q).id = q.id := by
    intro q; split <;> simp [hid]
  have gyes : ∀ q : Proposal, (if q.id == pid then f q else q).yesVotes = q.yesVotes := by
    intro q; split <;> simp [hyes]
  have gno : ∀ q : Proposal, (if q.id == pid then f q else q).noVotes = q.noVotes := by
    intro q; split <;> simp [hno]
  have gtot : ∀ q : Proposal, (if q.id == pid then f q else q).totalVotes = q.totalVotes := by
    intro q; split <;> simp [htot]
  refine ⟨?_, ?_, ?_, h4, h5, ?_, ?_⟩
  · intro p' hp'
    simp only [mapProposal, List.mem_map] at hp'
    obtain ⟨q, hq, rfl⟩ := hp'
    rw [gid q]; exact h1 q hq
  · simp only [mapProposal]
    rw [List.pairwise_map]
    exact h2.imp (fun {a b} h => by rw [gid a, gid b]; exact h)
  · intro p' hp'
    simp only [mapProposal, List.mem_map] at hp'
    obtain ⟨q, hq, rfl⟩ := hp'
    rw [gyes q, gno q, gtot q]; exact h3 q hq
  · intro p' hp'
    simp only [mapProposal, List.mem_map] at hp'
    obtain ⟨q, hq, rfl⟩ := hp'
    rw [gtot q, gid q]; exact h6 q hq
  · intro v hv
    obtain ⟨p0, hp0, he⟩ := h7 v hv
    exact ⟨if p0.id == pid then f p0 else p0,
      List.mem_map_of_mem _ hp0, by rw [gid p0]; exact he⟩

theorem good_setStatus {db : DB} (hg : Good db) (pid : Nat) (s : Status) :
    Good (setStatus db pid s) :=
  good_mapProposal hg pid _ (fun _ => rfl) (fun _ => rfl) (fun _ => rfl) (fun _ => rfl)

/-- The ledger insert + tally update of a fresh (non-duplicate) vote keeps
the store well-formed. -/
theorem good_recordAndTally {db : DB} (hg : Good db) {pid uid : Nat} {vote : Bool}
    {p : Proposal}
    (hfp : findProposal db pid = some p) (hdup : hasVoted db pid uid = false) :
    Good (recordAndTally db pid uid vote 1) := by
  obtain ⟨h1, h2, h3, h4, h5, h6, h7⟩ := hg
  have hdup' : ∀ v ∈ db.votes, ¬(v.proposalId = pid ∧ v.userId = uid) := by
    simpa [hasVoted] using hdup
  refine ⟨?_, ?_, ?_, ?_, ?_, ?_, ?_⟩
  · intro p' hp'
    simp only [recordAndTally, mapProposal, List.mem_map] at hp'
    obtain ⟨q, hq, rfl⟩ := hp'
    rw [ite_applyTally_id]; exact h1 q hq
  · simp only [recordAndTally, mapProposal]
    rw [List.pairwise_map]
    exact h2.imp (fun {a b} h => by rw [ite_applyTally_id, ite_applyTally_id]; exact h)
  · intro p' hp'
    simp only [recordAndTally, mapProposal, List.mem_map] at hp'
    obtain ⟨q, hq, rfl⟩ := hp'
    have hq3 := h3 q hq
    split
    · cases vote <;> simp [applyTally] <;> omega
    · exact hq3
  · show UniqueVoters (db.votes ++ [⟨pid, uid, vote, 1⟩])
    rw [UniqueVoters, List.pairwise_append]
    refine ⟨h4, List.pairwise_singleton _ _, ?_⟩
    intro a ha b hb
    rw [List.mem_singleton] at hb
    subst hb
    exact hdup' a ha
  · intro v hv
    rcases List.mem_append.mp hv with h | h
    · exact h5 v h
    · rw [List.mem_singleton] at h; subst h; rfl
  · intro p' hp'
    simp only [recordAndTally, mapProposal, List.mem_map] at hp'
    obtain ⟨q, hq, rfl⟩ := hp'
    have hcount : countVotes (recordAndTally db pid uid vote 1) q.id =
        countVotes db q.id + (if pid == q.id then 1 else 0) := by
      simp only [recordAndTally, mapProposal, countVotes, List.filter_append,
        List.length_append]
      congr 1
      by_cases h : pid = q.id
      · simp [List.filter, h]
      · have hb : (pid == q.id) = false := beq_eq_false_iff_ne.mpr h
        simp [List.filter, hb]
    rw [ite_applyTally_id, hcount]
    split
    next hqp =>
      have hqp' : q.id = pid := by simpa using hqp
      rw [applyTally_total, h6 q hq]
      simp [hqp']
    next hqp =>
      have hqp' : ¬ q.id = pid := by simpa using hqp
      have hps : ¬ pid = q.id := fun hh => hqp' hh.symm
      rw [h6 q hq]
      simp [hps]
  · intro v hv
    rcases List.mem_append.mp hv with h | h
    · obtain ⟨p0, hp0, he⟩ := h7 v h
      exact ⟨if p0.id == pid then applyTally vote 1 p0 else p0,
        List.mem_map_of_mem _ hp0, by rw [ite_applyTally_id]; exact he⟩
    · rw [List.mem_singleton] at h
      subst h
      refine ⟨if p.id == pid then applyTally vote 1 p else p,
        List.mem_map_of_mem _ (findProposal_some_mem hfp), ?_⟩
      rw [ite_applyTally_id]
      exact (findProposal_some_id hfp).symm

/-- Every request handler keeps the store well-formed. -/
theorem good_step {db : DB} (hg : Good db) (op : Op) : Good (step db op) := by
  cases op with
  | read now cid uid sf page limit => exact hg
  | create now cid uid t d ty du q th g =>
    cases hcp : createProposal db now cid uid t d ty du q th g with
    | error e => simpa [step, hcp] using hg
    | ok out =>
      obtain ⟨hval, m, hm, hperm, hout⟩ := createProposal_ok_elim hcp
      have hstep : step db (.create now cid uid t d ty du q th g) = out.1 := by
        simp [step, hcp]
      rw [hstep, hout]
      obtain ⟨h1, h2, h3, h4, h5, h6, h7⟩ := hg
      refine ⟨?_, ?_, ?_, h4, h5, ?_, ?_⟩
      · intro p' hp'
        rcases List.mem_append.mp hp' with h | h
        · exact Nat.lt_succ_of_lt (h1 p' h)
        · rw [List.mem_singleton] at h; subst h; exact Nat.lt_succ_self _
      · refine List.pairwise_append.mpr ⟨h2, List.pairwise_singleton _ _, ?_⟩
        intro a ha b hb
        rw [List.mem_singleton] at hb
        subst hb
        exact Nat.ne_of_lt (h1 a ha)
      · intro p' hp'
        rcases List.mem_append.mp hp' with h | h
        · exact h3 p' h
        · rw [List.mem_singleton] at h; subst h; rfl
      · intro p' hp'
        rcases List.mem_append.mp hp' with h | h
        · exact h6 p' h
        · rw [List.mem_singleton] at h
          subst h
          have : countVotes db db.nextId = 0 := by
            simp only [countVotes, List.length_eq_zero, List.filter_eq_nil_iff]
            intro v hv
            obtain ⟨p0, hp0, he⟩ := h7 v hv
            simp [he, Nat.ne_of_lt (h1 p0 hp0)]
          exact this.symm
      · intro v hv
        obtain ⟨p0, hp0, he⟩ := h7 v hv
        exact ⟨p0, List.mem_append_left _ hp0, he⟩
  | vote now cid pid uid ch tx =>
    cases hcv : castVote db now cid pid uid ch tx with
    | error e => simpa [step, hcv] using hg
    | ok out =>
      obtain ⟨vote, p, m, c, hch, hfp, hcid, hact, hwin, hdup, hm, hperm, hgas, hc, hout⟩ :=
        castVote_ok_elim hcv
      have hstep : step db (.vote now cid pid uid ch tx) = out.1 := by
        simp [step, hcv]
      rw [hstep, hout]
      rcases castVoteOk_fst_cases db now pid uid vote p c with h | ⟨s, _, h⟩ <;> rw [h]
      · exact good_recordAndTally ⟨hg.1, hg.2⟩ hfp hdup
      · exact good_setStatus (good_recordAndTally ⟨hg.1, hg.2⟩ hfp hdup) pid s

/-- Per-proposal correspondence across one step: every stored proposal
survives with the same key, tallies that never decrease, and a status that
moves only along `StatusStep`. -/
theorem step_corresp {db : DB} (hg : Good db) (op : Op) :
    ∀ q ∈ db.proposals, ∃ p' ∈ (step db op).proposals,
      p'.id = q.id ∧ q.yesVotes ≤ p'.yesVotes ∧ q.noVotes ≤ p'.noVotes ∧
      q.totalVotes ≤ p'.totalVotes ∧ StatusStep q.status p'.status := by
  intro q hq
  cases op with
  | read now cid uid sf page limit =>
    exact ⟨q, hq, rfl, le_refl _, le_refl _, le_refl _, Or.inl rfl⟩
  | create now cid uid t d ty du qr th g =>
    cases hcp : createProposal db now cid uid t d ty du qr th g with
    | error e =>
      have hstep : step db (.create now cid uid t d ty du qr th g) = db := by
        simp [step, hcp]
      rw [hstep]
      exact ⟨q, hq, rfl, le_refl _, le_refl _, le_refl _, Or.inl rfl⟩
    | ok out =>
      obtain ⟨hval, m, hm, hperm, hout⟩ := createProposal_ok_elim hcp
      have hstep : step db (.create now cid uid t d ty du qr th g) = out.1 := by
        simp [step, hcp]
      rw [hstep, hout]
      exact ⟨q, List.mem_append_left _ hq, rfl, le_refl _, le_refl _, le_refl _, Or.inl rfl⟩
  | vote now cid pid uid ch tx =>
    cases hcv : castVote db now cid pid uid ch tx with
    | error e =>
      rw [step_vote_error hcv]
      exact ⟨q, hq, rfl, le_refl _, le_refl _, le_refl _, Or.inl rfl⟩
    | ok out =>
      obtain ⟨vote, p, m, c, hch, hfp, hcid, hact, hwin, hdup, hm, hperm, hgas, hc, hout⟩ :=
        castVote_ok_elim hcv
      have hstep : step db (.vote now cid pid uid ch tx) = out.1 := by
        simp [step, hcv]
      rw [hstep, hout]
      rcases castVoteOk_fst_cases db now pid uid vote p c with h | ⟨s, hs, h⟩ <;> rw [h]
      · refine ⟨if q.id == pid then applyTally vote 1 q else q,
          List.mem_map_of_mem _ hq, ite_applyTally_id _ _ _ _, ?_, ?_, ?_, ?_⟩
        · split
          · exact applyTally_yes_le _ _ _
          · exact le_refl _
        · split
          · exact applyTally_no_le _ _ _
          · exact le_refl _
        · split
          · rw [applyTally_total]; exact Nat.le_add_right _ _
          · exact le_refl _
        · split
          · rw [applyTally_status]; exact Or.inl rfl
          · exact Or.inl rfl
      · by_cases hqp : q.id = pid
        · have hqeq : q = p := mem_eq_of_findProposal hg.2.1 hfp hq hqp
          refine ⟨{ applyTally vote 1 q with status := s }, ?_, ?_, ?_, ?_, ?_, ?_⟩
          · show _ ∈ (setStatus (recordAndTally db pid uid vote 1) pid s).proposals
            simp only [setStatus, mapProposal, recordAndTally, List.map_map, List.mem_map]
            refine ⟨q, hq, ?_⟩
            simp [Function.comp, hqp, applyTally_id]
          · show (applyTally vote 1 q).id = q.id
            exact applyTally_id _ _ _
          · exact applyTally_yes_le _ _ _
          · exact applyTally_no_le _ _ _
          · rw [applyTally_total]; exact Nat.le_add_right _ _
          · refine Or.inr ⟨by rw [hqeq]; exact hact, ?_⟩
            rcases hs with h | h
            · exact Or.inl h
            · exact Or.inr h
        · refine ⟨q, ?_, rfl, le_refl _, le_refl _, le_refl _, Or.inl rfl⟩
          show q ∈ (setStatus (recordAndTally db pid uid vote 1) pid s).proposals
          simp only [setStatus, mapProposal, recordAndTally, List.map_map, List.mem_map]
          refine ⟨q, hq, ?_⟩
          have hb : (q.id == pid) = false := beq_eq_false_iff_ne.mpr hqp
          simp [Function.comp, hb]

/-! ### Resolution refinement -/

theorem statusOf_setStatus_of_found {db : DB} {pid : Nat} {p : Proposal} (s : Status)
    (h : findProposal db pid = some p) :
    statusOf (setStatus db pid s) pid = some s := by
  unfold statusOf setStatus
  rw [findProposal_mapProposal db pid pid (fun q => { q with status := s }) (fun q => rfl), h]
  simp [findProposal_some_id h]

theorem findProposal_insertAndTally {db : DB} {pid : Nat} {p : Proposal}
    (uid : Nat) (vote : Bool) (w : Nat)
    (hfp : findProposal db pid = some p) :
    findProposal
      (mapProposal { db with votes := db.votes ++ [⟨pid, uid, vote, w⟩] } pid (applyTally vote w))
      pid = some (applyTally vote w p) := by
  rw [findProposal_mapProposal _ pid pid _ (applyTally_id vote w)]
  show (findProposal db pid).map _ = _
  rw [hfp]
  simp [findProposal_some_id hfp]

/-- The status persisted by the write path of a vote that passed the
window guard agrees with the spec's `resolve` reference function applied
to the updated tally, the proposal's config, the current time and the
community's member count. -/
theorem statusOf_castVoteOk (db : DB) (now : Int) (pid uid : Nat) (vote : Bool)
    (p : Proposal) (c : Community)
    (hfp : findProposal db pid = some p) (hact : p.status = .ACTIVE)
    (hwin : ¬ now > p.votingEndsAt) :
    statusOf (castVoteOk db now pid uid vote p c).1 pid =
      some (resolveSpec (applyTally vote 1 p).yesVotes (applyTally vote 1 p).totalVotes
        p.requiredQuorum p.passingThreshold now p.votingEndsAt c.memberCount) := by
  have hfp1 := findProposal_insertAndTally uid vote 1 hfp
  simp only [castVoteOk, resolveVotingWeight_eq_one, resolveSpec]
  rw [(applyTally_config vote 1 p).1, (applyTally_config vote 1 p).2.1,
    (applyTally_config vote 1 p).2.2.1]
  by_cases hquo : ((applyTally vote 1 p).totalVotes : ℚ) / (c.memberCount : ℚ) * 100
      ≥ (p.requiredQuorum : ℚ)
  · by_cases hthr : ((applyTally vote 1 p).yesVotes : ℚ) / ((applyTally vote 1 p).totalVotes : ℚ)
        * 100 ≥ (p.passingThreshold : ℚ)
    · simp only [hquo, hthr, if_true, if_pos]
      exact statusOf_setStatus_of_found _ hfp1
    · simp only [hquo, hthr, hwin, if_true, if_false, if_pos, if_neg, not_false_eq_true]
      rw [statusOf, hfp1]
      simp [applyTally_status, hact]
  · simp only [hquo, hwin, if_false, if_neg, not_false_eq_true]
    rw [statusOf, hfp1]
    simp [applyTally_status, hact]

/-! ### Read-path lemmas -/

theorem mem_insertByCreatedDesc {a p : Proposal} {l : List Proposal} :
    a ∈ insertByCreatedDesc p l ↔ a = p ∨ a ∈ l := by
  induction l with
  | nil => simp [insertByCreatedDesc]
  | cons q qs ih =>
    unfold insertByCreatedDesc
    split
    · simp
    · simp only [List.mem_cons, ih]
      tauto

theorem mem_sortByCreatedDesc {a : Proposal} {l : List Proposal} :
    a ∈ sortByCreatedDesc l ↔ a ∈ l := by
  induction l with
  | nil => simp [sortByCreatedDesc]
  | cons q qs ih =>
    rw [show sortByCreatedDesc (q :: qs) = insertByCreatedDesc q (sortByCreatedDesc qs) from rfl,
      mem_insertByCreatedDesc, ih, List.mem_cons]

theorem formatEntry_status (db : DB) (now : Int) (uid : Nat) (p : Proposal) :
    (formatEntry db now uid p).status = p.status := rfl

/-- Every entry a successful proposal listing returns is the formatting of
a stored row; in particular its `status` field is the stored status,
untouched by the read. -/
theorem getProposals_ok_elim {db : DB} {now : Int} {cid uid : Nat}
    {sf : Option Status} {page limit : Nat} {out : List Entry}
    (h : getProposals db now cid uid sf page limit = .ok out) :
    ∀ e ∈ out, ∃ p ∈ db.proposals, e = formatEntry db now uid p := by
  unfold getProposals at h
  split at h
  · cases h
  next hval =>
    cases hm : findMembership db uid cid with
    | none => simp only [hm] at h; cases h
    | some m =>
      simp only [hm] at h
      injection h with h
      subst h
      intro e he
      rw [List.mem_map] at he
      obtain ⟨p, hp, rfl⟩ := he
      have hp1 := List.mem_of_mem_drop (List.mem_of_mem_take hp)
      rw [mem_sortByCreatedDesc] at hp1
      exact ⟨p, (List.mem_filter.mp hp1).1, rfl⟩

theorem findProposal_setStatus_of_found {db : DB} {pid : Nat} {p : Proposal} (s : Status)
    (h : findProposal db pid = some p) :
    findProposal (setStatus db pid s) pid = some { p with status := s } := by
  unfold setStatus
  rw [findProposal_mapProposal db pid pid (fun q => { q with status := s }) (fun q => rfl), h]
  simp [findProposal_some_id h]

/-! ### Claims -/

section ClaimTheorems

attribute [local semireducible] Rat.mul Rat.inv Rat.add Rat.sub

/-- C9: a `castVote` whose `vote` body field is not a boolean fails the
validator chain with the 400 validation error before any store access, so
nothing is written: no ledger row, no tally change, no status change. -/
theorem claim9_nonboolean_choice_rejected (db : DB) (now : Int) (cid pid uid : Nat)
    (tx : Option Nat) :
    castVote db now cid pid uid .nonBool tx = .error .validationFailed ∧
    step db (.vote now cid pid uid .nonBool tx) = db := by
  refine ⟨rfl, ?_⟩
  exact step_vote_error rfl

/-- C7: a vote arriving after `votingEndsAt` on a proposal whose stored
status is still ACTIVE is rejected with `VotingWindowClosed` (the guard
`new Date() > proposal.votingEndsAt`) and the store is unchanged. -/
theorem claim7_window_closed_rejected (db : DB) (now : Int) (cid pid uid : Nat)
    (b : Bool) (tx : Option Nat) (p : Proposal)
    (hfp : findProposal db pid = some p) (hcid : p.communityId = cid)
    (hact : p.status = .ACTIVE) (hwin : now > p.votingEndsAt) :
    castVote db now cid pid uid (.bool b) tx = .error .votingWindowClosed ∧
    step db (.vote now cid pid uid (.bool b) tx) = db := by
  have h := castVote_window_closed db now cid pid uid b tx hfp hcid hact hwin
  exact ⟨h, step_vote_error h⟩

/-- Witness for C7: voting at time 200 on `proposalE` (ACTIVE, window
ended at 100) is rejected with `VotingWindowClosed` and writes nothing. -/
theorem claim7_witness :
    castVote dbE 200 1 1 102 (.bool true) none = .error .votingWindowClosed ∧
    step dbE (.vote 200 1 1 102 (.bool true) none) = dbE :=
  claim7_window_closed_rejected dbE 200 1 1 102 true none proposalE
    (by decide) (by decide) (by decide) (by decide)

/-- C5: proposal statuses move forward only. Across any request, every
stored proposal keeps its status or moves from ACTIVE to PASSED/FAILED
(never PASSED to FAILED or back to ACTIVE); and a vote on a proposal whose
status is already terminal is rejected with `ProposalNotActive`, leaving
the store - in particular the tallies - unchanged. -/
theorem claim5_forward_only_status :
    (∀ (db : DB) (op : Op), Good db → ∀ q ∈ db.proposals,
      ∃ p' ∈ (step db op).proposals, p'.id = q.id ∧ StatusStep q.status p'.status) ∧
    (∀ (db : DB) (now : Int) (cid pid uid : Nat) (b : Bool) (tx : Option Nat) (p : Proposal),
      findProposal db pid = some p → p.communityId = cid → p.status ≠ .ACTIVE →
      castVote db now cid pid uid (.bool b) tx = .error .proposalNotActive ∧
        step db (.vote now cid pid uid (.bool b) tx) = db) := by
  constructor
  · intro db op hg q hq
    obtain ⟨p', hp', hid, _, _, _, hstat⟩ := step_corresp hg op q hq
    exact ⟨p', hp', hid, hstat⟩
  · intro db now cid pid uid b tx p hfp hcid hstat
    have h := castVote_not_active db now cid pid uid b tx hfp hcid hstat
    exact ⟨h, step_vote_error h⟩

/-- Witness for C5: a vote on the already-PASSED `proposalT` is rejected
with `ProposalNotActive` and the store is unchanged. -/
theorem claim5_witness :
    castVote dbT 10 1 1 105 (.bool true) none = .error .proposalNotActive ∧
    step dbT (.vote 10 1 1 105 (.bool true) none) = dbT :=
  claim5_forward_only_status.2 dbT 10 1 1 105 true none proposalT
    (by decide) (by decide) (by decide)

/-- C1: exactly-once voting. A voter with a recorded vote on an ACTIVE,
in-window proposal is rejected with `DuplicateVote` and nothing is
written; a voter passing every guard (in particular with no prior vote)
gets exactly one ledger row appended; and every request preserves the
at-most-one-vote-per-(proposal, voter) invariant of the ledger. -/
theorem claim1_duplicate_vote_exactly_once :
    (∀ (db : DB) (now : Int) (cid pid uid : Nat) (b : Bool) (tx : Option Nat) (p : Proposal),
      findProposal db pid = some p → p.communityId = cid → p.status = .ACTIVE →
      ¬ now > p.votingEndsAt → hasVoted db pid uid = true →
      castVote db now cid pid uid (.bool b) tx = .error .duplicateVote ∧
        step db (.vote now cid pid uid (.bool b) tx) = db) ∧
    (∀ (db : DB) (now : Int) (cid pid uid : Nat) (b : Bool) (tx : Option Nat)
      (p : Proposal) (m : Membership) (c : Community),
      findProposal db pid = some p → p.communityId = cid → p.status = .ACTIVE →
      ¬ now > p.votingEndsAt → hasVoted db pid uid = false →
      findMembership db uid cid = some m → hasPerm m "VOTE" = true →
      (p.gasRequired && tx.isNone) = false → findCommunity db p.communityId = some c →
      castVote db now cid pid uid (.bool b) tx = .ok (castVoteOk db now pid uid b p c) ∧
        (castVoteOk db now pid uid b p c).1.votes = db.votes ++ [⟨pid, uid, b, 1⟩]) ∧
    (∀ (db : DB) (op : Op), Good db → UniqueVoters (step db op).votes) := by
  refine ⟨?_, ?_, ?_⟩
  · intro db now cid pid uid b tx p hfp hcid hact hwin hdup
    have h := castVote_duplicate db now cid pid uid b tx hfp hcid hact hwin hdup
    exact ⟨h, step_vote_error h⟩
  · intro db now cid pid uid b tx p m c hfp hcid hact hwin hdup hm hperm hgas hc
    constructor
    · have hc' : findCommunity db cid = some c := by rw [← hcid]; exact hc
      simp [castVote, hfp, hcid, hact, hwin, hdup, hm, hperm, hgas, hc']
    · rcases castVoteOk_fst_cases db now pid uid b p c with h | ⟨s, _, h⟩ <;> rw [h] <;>
        simp [recordAndTally, setStatus, mapProposal]
  · intro db op hg
    exact (good_step hg op).2.2.2.1

/-- Witness for C1: after users 100 and 101 have voted, a second vote by
user 100 is rejected with `DuplicateVote` and writes nothing, while user
102 (no prior vote) gets exactly one row appended; uniqueness of the
ledger is preserved across the duplicate attempt. -/
theorem claim1_witness :
    (castVote (dbAfter 2) 10 1 1 100 (.bool true) none = .error .duplicateVote ∧
      step (dbAfter 2) (.vote 10 1 1 100 (.bool true) none) = dbAfter 2) ∧
    (castVoteOk (dbAfter 2) 10 1 102 true (pAfter 2) commW).1.votes
      = (dbAfter 2).votes ++ [⟨1, 102, true, 1⟩] ∧
    UniqueVoters (step (dbAfter 2) (.vote 10 1 1 100 (.bool true) none)).votes := by
  refine ⟨claim1_duplicate_vote_exactly_once.1 (dbAfter 2) 10 1 1 100 true none (pAfter 2)
      (by decide) (by decide) (by decide) (by decide) (by decide), ?_, ?_⟩
  · exact (claim1_duplicate_vote_exactly_once.2.1 (dbAfter 2) 10 1 1 102 true none
      (pAfter 2) ⟨102, 1, [roleAll]⟩ commW (by decide) (by decide) (by decide) (by decide)
      (by decide) (by decide) (by decide) (by decide) (by decide)).2
  · exact claim1_duplicate_vote_exactly_once.2.2 (dbAfter 2)
      (.vote 10 1 1 100 (.bool true) none) (by decide)

/-- C2: after every successful `castVote`, the status stored for the
proposal equals the spec's `resolve` reference function applied to the
updated tally (as echoed in the response), the proposal's
quorum/threshold config, the current time and the community's current
`memberCount`. -/
theorem claim2_resolution_refines_spec (db : DB) (now : Int) (cid pid uid : Nat)
    (ch : RawChoice) (tx : Option Nat) (db' : DB) (v : Vote) (up : Proposal)
    (p : Proposal) (c : Community)
    (hok : castVote db now cid pid uid ch tx = .ok (db', v, up))
    (hfp : findProposal db pid = some p)
    (hc : findCommunity db p.communityId = some c) :
    statusOf db' pid = some (resolveSpec up.yesVotes up.totalVotes p.requiredQuorum
      p.passingThreshold now p.votingEndsAt c.memberCount) := by
  obtain ⟨vote, p1, m, c1, hch, hfp1, hcid, hact, hwin, hdup, hm, hperm, hgas, hc1, hout⟩ :=
    castVote_ok_elim hok
  rw [hfp1] at hfp
  injection hfp with hfp
  subst hfp
  rw [hc1] at hc
  injection hc with hc
  subst hc
  have hdb' : db' = (castVoteOk db now pid uid vote p1 c1).1 := congrArg (fun x => x.1) hout
  have hup : up = applyTally vote 1 p1 := by
    have h2 := congrArg (fun x => x.2.2) hout
    simpa [castVoteOk, resolveVotingWeight_eq_one] using h2
  rw [hdb', hup]
  exact statusOf_castVoteOk db now pid uid vote p1 c1 hfp1 hact hwin

/-- Witness for C2: the fifth yes vote on `proposalC` (quorum 50,
threshold 60, 10 members): the persisted status equals the spec's
resolution of the updated tally (5 of 5 yes, 5 of 10 participating),
which is PASSED. -/
theorem claim2_witness :
    statusOf (dbAfter 5) 1 = some (resolveSpec (pAfter 5).yesVotes (pAfter 5).totalVotes
      (pAfter 4).requiredQuorum (pAfter 4).passingThreshold 10 (pAfter 4).votingEndsAt
      commW.memberCount) :=
  claim2_resolution_refines_spec (dbAfter 4) 10 1 1 104 (.bool true) none (dbAfter 5)
    ⟨1, 104, true, 1⟩ (pAfter 5) (pAfter 4) commW (by decide) (by decide) (by decide)

/-- C3 counterexample: `proposalE` is stored ACTIVE and its window ended
at 100; reading the community's proposals at time 200 returns it with
status ACTIVE and persists nothing - the stored status after the read is
still ACTIVE, not FAILED, contradicting the claimed lazy expiry sweep. -/
theorem claim3_counterexample :
    statusOf dbE 1 = some .ACTIVE ∧
    (200 : Int) > proposalE.votingEndsAt ∧
    getProposals dbE 200 1 100 none 1 10 = .ok [formatEntry dbE 200 100 proposalE] ∧
    (formatEntry dbE 200 100 proposalE).status = .ACTIVE ∧
    step dbE (.read 200 1 100 none 1 10) = dbE ∧
    ¬ statusOf (step dbE (.read 200 1 100 none 1 10)) 1 = some .FAILED := by
  decide

/-- C3 amended: the proposal listing never writes to the store. Each
returned entry is the formatting of a stored row with its stored status
unchanged (an expired proposal is reported ACTIVE, only the derived
`isActive` flag is false); no FAILED status is ever persisted on read. -/
theorem claim3_read_does_not_sweep (db : DB) (now : Int) (cid uid : Nat)
    (sf : Option Status) (page limit : Nat) (out : List Entry)
    (h : getProposals db now cid uid sf page limit = .ok out) :
    step db (.read now cid uid sf page limit) = db ∧
    ∀ e ∈ out, ∃ p ∈ db.proposals, e = formatEntry db now uid p ∧ e.status = p.status ∧
      (p.status = .ACTIVE → now ≥ p.votingEndsAt → e.isActive = false) := by
  refine ⟨rfl, ?_⟩
  intro e he
  obtain ⟨p, hp, rfl⟩ := getProposals_ok_elim h e he
  refine ⟨p, hp, rfl, rfl, ?_⟩
  intro hact hnow
  have h0 : max 0 (p.votingEndsAt - now) = 0 := by omega
  simp [formatEntry, h0]

/-- Witness for the amended C3, applied to the expired `proposalE`. -/
theorem claim3_witness :
    step dbE (.read 200 1 100 none 1 10) = dbE ∧
    ∀ e ∈ [formatEntry dbE 200 100 proposalE], ∃ p ∈ dbE.proposals,
      e = formatEntry dbE 200 100 p ∧ e.status = p.status ∧
      (p.status = .ACTIVE → (200:Int) ≥ p.votingEndsAt → e.isActive = false) :=
  claim3_read_does_not_sweep dbE 200 1 100 none 1 10
    [formatEntry dbE 200 100 proposalE] (by decide)

/-- C6: early exit. With `requiredQuorum = 50`, `passingThreshold = 60`
and `memberCount = 10`, after 5 equal-weight yes votes the status is
PASSED immediately, while the current time (10) is still far before
`votingEndsAt` (86400000); after only 4 votes it was still ACTIVE. -/
theorem claim6_early_exit :
    proposalC.requiredQuorum = 50 ∧ proposalC.passingThreshold = 60 ∧
    commW.memberCount = 10 ∧
    (dbAfter 5).votes = (List.range 5).map (fun i => ⟨1, 100 + i, true, 1⟩) ∧
    countVotes (dbAfter 5) 1 = 5 ∧
    statusOf (dbAfter 4) 1 = some .ACTIVE ∧
    statusOf (dbAfter 5) 1 = some .PASSED ∧
    (10 : Int) < proposalC.votingEndsAt := by
  decide

/-- C4: tally conservation. After any request the equation
`yesVotes + noVotes = totalVotes` holds for every stored proposal (the
counters are ℕ, hence non-negative); no request ever decreases any
counter of a surviving proposal; and a successful vote increments exactly
the chosen side and the total by the resolved weight 1. -/
theorem claim4_tally_conservation :
    (∀ (db : DB) (op : Op), Good db →
      ∀ p' ∈ (step db op).proposals, p'.yesVotes + p'.noVotes = p'.totalVotes) ∧
    (∀ (db : DB) (op : Op), Good db → ∀ q ∈ db.proposals,
      ∃ p' ∈ (step db op).proposals, p'.id = q.id ∧ q.yesVotes ≤ p'.yesVotes ∧
        q.noVotes ≤ p'.noVotes ∧ q.totalVotes ≤ p'.totalVotes) ∧
    (∀ (db : DB) (now : Int) (cid pid uid : Nat) (b : Bool) (tx : Option Nat)
      (db' : DB) (v : Vote) (up : Proposal) (p : Proposal),
      castVote db now cid pid uid (.bool b) tx = .ok (db', v, up) →
      findProposal db pid = some p →
      ∃ q, findProposal db' pid = some q ∧
        q.yesVotes = p.yesVotes + (if b then 1 else 0) ∧
        q.noVotes = p.noVotes + (if b then 0 else 1) ∧
        q.totalVotes = p.totalVotes + 1) := by
  refine ⟨?_, ?_, ?_⟩
  · intro db op hg
    exact (good_step hg op).2.2.1
  · intro db op hg q hq
    obtain ⟨p', hp', hid, hy, hn, ht, _⟩ := step_corresp hg op q hq
    exact ⟨p', hp', hid, hy, hn, ht⟩
  · intro db now cid pid uid b tx db' v up p hok hfp
    obtain ⟨vote, p1, m, c, hch, hfp1, hcid, hact, hwin, hdup, hm, hperm, hgas, hc, hout⟩ :=
      castVote_ok_elim hok
    injection hch with hch
    subst hch
    rw [hfp1] at hfp
    injection hfp with hfp
    subst hfp
    have hdb' : db' = (castVoteOk db now pid uid b p1 c).1 := congrArg (fun x => x.1) hout
    rw [hdb']
    rcases castVoteOk_fst_cases db now pid uid b p1 c with h | ⟨s, _, h⟩ <;> rw [h]
    · refine ⟨applyTally b 1 p1, findProposal_insertAndTally uid b 1 hfp1, ?_⟩
      cases b <;> simp [applyTally]
    · refine ⟨{ applyTally b 1 p1 with status := s },
        findProposal_setStatus_of_found s (findProposal_insertAndTally uid b 1 hfp1), ?_⟩
      cases b <;> simp [applyTally]

/-- Witness for C4: the third yes vote takes the tally from (2,0,2) to
(3,0,3): the equation holds, and yes/total each grew by exactly 1. -/
theorem claim4_witness :
    (pAfter 3).yesVotes + (pAfter 3).noVotes = (pAfter 3).totalVotes ∧
    (pAfter 3).yesVotes = (pAfter 2).yesVotes + 1 ∧
    (pAfter 3).totalVotes = (pAfter 2).totalVotes + 1 := by
  refine ⟨claim4_tally_conservation.1 (dbAfter 2) (.vote 10 1 1 102 (.bool true) none)
    (by decide) (pAfter 3) (by decide), ?_, ?_⟩ <;>
  · obtain ⟨q, hq, hy, hn, ht⟩ := claim4_tally_conservation.2.2 (dbAfter 2) 10 1 1 102 true
      none (dbAfter 3) ⟨1, 102, true, 1⟩ (pAfter 3) (pAfter 2) (by decide) (by decide)
    have hq3 : q = pAfter 3 := by
      have hfp3 : findProposal (dbAfter 3) 1 = some (pAfter 3) := by decide
      rw [hfp3] at hq
      injection hq with hq
      exact hq.symm
    subst hq3
    simp_all

/-- C8: `createProposal` validation, permissions and initialization. A
voting duration outside [1,168] or an explicit quorum/threshold outside
[1,100] is rejected with the 400 validation error (the spec's
`InvalidRange`); an author with no membership or without the
CREATE_PROPOSALS permission gets the 403 rejections; on success the row
is created with `votingStartsAt = now`, `votingEndsAt` one duration
later, status ACTIVE, zero tallies, and quorum/threshold defaulting
to 50. -/
theorem claim8_create_proposal :
    (∀ (db : DB) (now : Int) (cid uid : Nat) (t d : String) (ty : PType) (du : Int)
      (q th : Option Int) (g : Option Bool), (du < 1 ∨ 168 < du) →
      createProposal db now cid uid t d ty du q th g = .error .validationFailed) ∧
    (∀ (db : DB) (now : Int) (cid uid : Nat) (t d : String) (ty : PType) (du : Int)
      (q th : Option Int) (g : Option Bool) (x : Int), x ∈ q → (x < 1 ∨ 100 < x) →
      createProposal db now cid uid t d ty du q th g = .error .validationFailed) ∧
    (∀ (db : DB) (now : Int) (cid uid : Nat) (t d : String) (ty : PType) (du : Int)
      (q th : Option Int) (g : Option Bool) (x : Int), x ∈ th → (x < 1 ∨ 100 < x) →
      createProposal db now cid uid t d ty du q th g = .error .validationFailed) ∧
    (∀ (db : DB) (now : Int) (cid uid : Nat) (t d : String) (ty : PType) (du : Int)
      (q th : Option Int) (g : Option Bool), createValid t d du q th →
      findMembership db uid cid = none →
      createProposal db now cid uid t d ty du q th g = .error .mustBeMember) ∧
    (∀ (db : DB) (now : Int) (cid uid : Nat) (t d : String) (ty : PType) (du : Int)
      (q th : Option Int) (g : Option Bool) (m : Membership), createValid t d du q th →
      findMembership db uid cid = some m → hasPerm m "CREATE_PROPOSALS" = false →
      createProposal db now cid uid t d ty du q th g = .error .permissionDenied) ∧
    (∀ (db : DB) (now : Int) (cid uid : Nat) (t d : String) (ty : PType) (du : Int)
      (q th : Option Int) (g : Option Bool) (m : Membership), createValid t d du q th →
      findMembership db uid cid = some m → hasPerm m "CREATE_PROPOSALS" = true →
      createProposal db now cid uid t d ty du q th g =
        .ok ({ db with
                proposals := db.proposals ++ [newProposal db now cid t d ty du q th g],
                nextId := db.nextId + 1 }, newProposal db now cid t d ty du q th g) ∧
      (newProposal db now cid t d ty du q th g).votingStartsAt = now ∧
      (newProposal db now cid t d ty du q th g).votingEndsAt = now + du * 60 * 60 * 1000 ∧
      (newProposal db now cid t d ty du q th g).status = .ACTIVE ∧
      (newProposal db now cid t d ty du q th g).yesVotes = 0 ∧
      (newProposal db now cid t d ty du q th g).noVotes = 0 ∧
      (newProposal db now cid t d ty du q th g).totalVotes = 0 ∧
      (newProposal db now cid t d ty du q th g).requiredQuorum = q.getD 50 ∧
      (newProposal db now cid t d ty du q th g).passingThreshold = th.getD 50) := by
  refine ⟨?_, ?_, ?_, ?_, ?_, ?_⟩
  · intro db now cid uid t d ty du q th g hdu
    unfold createProposal
    rw [if_pos]
    intro hv
    obtain ⟨_, _, _, _, h5, h6, _, _⟩ := hv
    omega
  · intro db now cid uid t d ty du q th g x hx hxr
    unfold createProposal
    rw [if_pos]
    intro hv
    obtain ⟨_, _, _, _, _, _, h7, _⟩ := hv
    have := h7 x hx
    omega
  · intro db now cid uid t d ty du q th g x hx hxr
    unfold createProposal
    rw [if_pos]
    intro hv
    obtain ⟨_, _, _, _, _, _, _, h8⟩ := hv
    have := h8 x hx
    omega
  · intro db now cid uid t d ty du q th g hval hm
    unfold createProposal
    rw [if_neg (not_not_intro hval)]
    simp only [hm]
  · intro db now cid uid t d ty du q th g m hval hm hperm
    unfold createProposal
    rw [if_neg (not_not_intro hval)]
    simp only [hm]
    rw [if_pos (by simp [hperm])]
  · intro db now cid uid t d ty du q th g m hval hm hperm
    refine ⟨?_, rfl, rfl, rfl, rfl, rfl, rfl, rfl, rfl⟩
    unfold createProposal
    rw [if_neg (not_not_intro hval)]
    simp only [hm]
    rw [if_neg (by simp [hperm])]

/-- Witness for C8: a 200-hour duration is rejected; a non-member author
is rejected; the valid creation by member 100 yields `proposalC` with the
specified window, ACTIVE status, zero tallies and the given
quorum/threshold. -/
theorem claim8_witness :
    createProposal dbW 0 1 100 titleW descW .GENERAL 200 none none none
      = .error .validationFailed ∧
    createProposal dbW 0 1 999 titleW descW .GENERAL 24 none none none
      = .error .mustBeMember ∧
    createProposal dbW 0 1 100 titleW descW .GENERAL 24 (some 50) (some 60) none
      = .ok ({ dbW with proposals := dbW.proposals ++ [proposalC], nextId := dbW.nextId + 1 },
          proposalC) ∧
    proposalC.votingStartsAt = 0 ∧ proposalC.votingEndsAt = 86400000 ∧
    proposalC.status = .ACTIVE ∧ proposalC.yesVotes = 0 ∧ proposalC.noVotes = 0 ∧
    proposalC.totalVotes = 0 ∧ proposalC.requiredQuorum = 50 ∧
    proposalC.passingThreshold = 60 := by
  refine ⟨claim8_create_proposal.1 dbW 0 1 100 titleW descW .GENERAL 200 none none none
      (Or.inr (by decide)),
    claim8_create_proposal.2.2.2.1 dbW 0 1 999 titleW descW .GENERAL 24 none none none
      (by decide) (by decide),
    (claim8_create_proposal.2.2.2.2.2 dbW 0 1 100 titleW descW .GENERAL 24 (some 50)
      (some 60) none ⟨100, 1, [roleAll]⟩ (by decide) (by decide) (by decide)).1,
    by decide, by decide, by decide, by decide, by decide, by decide, by decide, by decide⟩

/-- C10: the resolved voting weight is 1 in every voting-power mode, the
stored vote row and response carry weight 1, and consequently every
proposal's `totalVotes` equals its number of recorded votes after any
request. -/
theorem claim10_weight_always_one :
    (∀ c : Community, resolveVotingWeight c = 1) ∧
    (∀ (db : DB) (now : Int) (cid pid uid : Nat) (ch : RawChoice) (tx : Option Nat)
      (db' : DB) (v : Vote) (up : Proposal),
      castVote db now cid pid uid ch tx = .ok (db', v, up) →
      v.weight = 1 ∧ db'.votes = db.votes ++ [v]) ∧
    (∀ (db : DB) (op : Op), Good db →
      (∀ w ∈ (step db op).votes, w.weight = 1) ∧
      ∀ p' ∈ (step db op).proposals, p'.totalVotes = countVotes (step db op) p'.id) := by
  refine ⟨resolveVotingWeight_eq_one, ?_, ?_⟩
  · intro db now cid pid uid ch tx db' v up hok
    obtain ⟨vote, p, m, c, hch, hfp, hcid, hact, hwin, hdup, hm, hperm, hgas, hc, hout⟩ :=
      castVote_ok_elim hok
    have hv : v = ⟨pid, uid, vote, 1⟩ := by
      have h2 := congrArg (fun x => x.2.1) hout
      simpa [castVoteOk, resolveVotingWeight_eq_one] using h2
    have hdb' : db' = (castVoteOk db now pid uid vote p c).1 := congrArg (fun x => x.1) hout
    refine ⟨by rw [hv], ?_⟩
    rw [hdb', hv]
    rcases castVoteOk_fst_cases db now pid uid vote p c with h | ⟨s, _, h⟩ <;> rw [h] <;>
      simp [recordAndTally, setStatus, mapProposal]
  · intro db op hg
    have hgs := good_step hg op
    exact ⟨hgs.2.2.2.2.1, hgs.2.2.2.2.2.1⟩

/-- Witness for C10: the equal-power community resolves weight 1; the
first vote stores weight 1 and appends exactly that row; after 4 votes
`totalVotes` equals the 4 recorded rows. -/
theorem claim10_witness :
    resolveVotingWeight commW = 1 ∧
    (Vote.mk 1 100 true 1).weight = 1 ∧
    (dbAfter 1).votes = dbC.votes ++ [⟨1, 100, true, 1⟩] ∧
    (pAfter 4).totalVotes = countVotes (dbAfter 4) 1 := by
  refine ⟨claim10_weight_always_one.1 commW, ?_, ?_, ?_⟩
  · exact (claim10_weight_always_one.2.1 dbC 10 1 1 100 (.bool true) none (dbAfter 1)
      ⟨1, 100, true, 1⟩ (pAfter 1) (by decide)).1
  · exact (claim10_weight_always_one.2.1 dbC 10 1 1 100 (.bool true) none (dbAfter 1)
      ⟨1, 100, true, 1⟩ (pAfter 1) (by decide)).2
  · exact (claim10_weight_always_one.2.2 (dbAfter 3) (.vote 10 1 1 103 (.bool true) none)
      (by decide)).2 (pAfter 4) (by decide)

end ClaimTheorems

end Nexus
